import Mathlib

/-!
Verification of the chrome-cdp repository's specification against its source.

The definitions below are shallow embeddings of the Rust code in
`src/connection.rs`, `src/browser.rs` and `src/page.rs`.  JSON values
(`serde_json::Value`) are modelled by the inductive `Value`; machine
integers are modelled by `Nat`/`Int` with explicit `% 2^32` where the code
uses `u32` arithmetic; fallible code returns `Except`/`Option`.
-/

namespace ChromeCdp

/-- Model of `serde_json::Value`: null, booleans, numbers (modelled as `Int`;
the claims only exercise integral numbers), strings, arrays and objects
(association lists with unique keys). -/
inductive Value where
  | null
  | vbool (b : Bool)
  | num (n : Int)
  | str (s : String)
  | arr (xs : List Value)
  | obj (fields : List (String × Value))
deriving Repr

/-- Model of `serde_json::Value::get(key)`: for an object, the value stored
under `key` (first match in the association list); `None` otherwise. -/
def Value.get (v : Value) (k : String) : Option Value :=
  match v with
  | .obj fields => (fields.find? (fun p => p.1 == k)).map (·.2)
  | _ => none

/-- Model of `value[key]` indexing on `serde_json::Value`: the stored value
for objects holding the key, `Null` otherwise. -/
def Value.index (v : Value) (k : String) : Value :=
  (Value.get v k).getD Value.null

/-- Model of `Value::as_str`. -/
def Value.asStr (v : Value) : Option String :=
  match v with
  | .str s => some s
  | _ => none

/-- Model of `Value::as_u64`: numbers representable as `u64`. -/
def Value.asU64 (v : Value) : Option Nat :=
  match v with
  | .num n => if 0 ≤ n ∧ n < 2 ^ 64 then some n.toNat else none
  | _ => none

/-- Model of `Value::as_i64`: numbers representable as `i64`. -/
def Value.asI64 (v : Value) : Option Int :=
  match v with
  | .num n => if -(2 ^ 63) ≤ n ∧ n < 2 ^ 63 then some n else none
  | _ => none

/-- Model of the crate's `Error` enum (`src/error.rs`); each variant carries
its rendered message text. -/
inductive Error where
  | browser (s : String)
  | cdp (s : String)
  | ioErr (s : String)
  | http (s : String)
  | jsonErr (s : String)
  | websocket (s : String)
deriving Repr

/-! ### Command multiplexer: pending table and reader task (`src/connection.rs`) -/

/-- Model of `HashMap::remove(&id)` on the pending table (an association
list with unique keys): the removed responder, if any, and the table
without that entry. -/
def removePending (id : Nat) (t : List (Nat × α)) : Option α × List (Nat × α) :=
  ((t.find? (fun p => p.1 == id)).map (·.2), t.filter (fun p => p.1 != id))

/-- What the reader task does with the completion slot (the
`oneshot::Sender`) of a correlated message: send a failure, send a success
value, or drop the slot without sending (the `else` cases of
`connection.rs` lines 62-73 send nothing, so the slot is dropped). -/
inductive Delivery where
  | sentErr (msg : String)
  | sentOk (v : Value)
  | dropped
deriving Repr

/-- The failure message the reader builds for a correlated message carrying
an `error` field (`connection.rs` lines 62-70). -/
def cdpErrMsg (id : Nat) (err : Value) : String :=
  "CDP error for command " ++ toString id ++ ": " ++
    toString (((Value.index err "code").asI64).getD (-1)) ++ " - " ++
    (((Value.index err "message").asStr).getD "unknown")

/-- One step of the reader task on an inbound text message already parsed
as `v` (`connection.rs` lines 56-77): extract `v["id"].as_u64()`, truncate
`as u32`, remove the pending entry, and — if a responder was present —
send a CDP failure when an `error` field exists, the `result` payload when
a `result` field exists, and otherwise drop the responder without sending.
Returns the new pending table and the action taken on the removed
responder (`none` when no pending entry matched or the message had no
numeric `id`). -/
def readerStep (pending : List (Nat × α)) (v : Value) :
    List (Nat × α) × Option (α × Delivery) :=
  match (Value.index v "id").asU64 with
  | none => (pending, none)
  | some idRaw =>
    let id := idRaw % 2 ^ 32
    let (respOpt, pending') := removePending id pending
    match respOpt with
    | none => (pending', none)
    | some r =>
      match Value.get v "error" with
      | some err => (pending', some (r, .sentErr (cdpErrMsg id err)))
      | none =>
        match Value.get v "result" with
        | some res => (pending', some (r, .sentOk res))
        | none => (pending', some (r, .dropped))

/-! ### Identifier assignment (`CdpConnection::send_command`, `connection.rs` 96-111) -/

/-- The value of the `next_id : u32` counter after `j` submissions have run
the lock-guarded block `let id = *next_id; *next_id += 1;`.  The counter
starts at 1 (`connection.rs` line 91) and the `u32` increment wraps modulo
`2^32` (release-mode semantics). -/
def nextIdAfter : Nat → Nat
  | 0 => 1
  | j + 1 => (nextIdAfter j + 1) % 2 ^ 32

/-- The identifier handed to the `(j+1)`-th submission: the counter value
read before the increment.  The mutex makes the read-and-increment atomic,
so any interleaving of concurrent submitters is a sequence of these
steps. -/
def assignedId (j : Nat) : Nat := nextIdAfter j

/-! ### Writer task (`CdpConnection::connect`, `connection.rs` 34-49) -/

/-- Model of `HashMap::insert(id, responder)` on the pending table:
overwrites any existing entry for `id`. -/
def insertPending (id : Nat) (r : α) (t : List (Nat × α)) : List (Nat × α) :=
  (id, r) :: t.filter (fun p => p.1 != id)

/-- The writer task's loop (`connection.rs` 35-48): for each queued command
`(id, method, params, responder, sendOk)` it inserts the responder into the
pending table and then attempts to send the envelope; `sendOk` models
whether `write.send` succeeds — on failure the loop breaks.  The result
records, for every envelope handed to `write.send`, the identifier, the
pending table before the insert, and the pending table at send time. -/
def writerRun (pending : List (Nat × α)) :
    List (Nat × String × Value × α × Bool) → List (Nat × List (Nat × α) × List (Nat × α))
  | [] => []
  | (id, _method, _params, r, sendOk) :: rest =>
    let atSend := insertPending id r pending
    (id, pending, atSend) :: (if sendOk then writerRun atSend rest else [])

/-! ### Page client (`src/page.rs`) -/

/-- The tail of `CdpPage::evaluate` (`page.rs` 71-100) applied to the
outcome of the `Runtime.evaluate` command: a failed command propagates its
error (the `?`); a successful response with an `exceptionDetails` field
becomes a `Browser` error built from the exception's description (falling
back to its `text`, then to `"unknown error"`) and its line/column numbers
(defaulting to −1); otherwise the value at `result["result"]["value"]` is
returned. -/
def evalOutcome (cmdRes : Except Error Value) : Except Error Value :=
  match cmdRes with
  | .error e => .error e
  | .ok result =>
    match Value.get result "exceptionDetails" with
    | some exc =>
      let excText :=
        match ((Value.index exc "exception").index "description").asStr with
        | some s => s
        | none => ((Value.index exc "text").asStr).getD "unknown error"
      let columnNumber := ((Value.index exc "columnNumber").asI64).getD (-1)
      let lineNumber := ((Value.index exc "lineNumber").asI64).getD (-1)
      .error (.browser ("JavaScript execution error at line " ++ toString lineNumber ++
        ", column " ++ toString columnNumber ++ ": " ++ excText))
    | none => .ok ((Value.index result "result").index "value")

/-- The polling loop of `CdpPage::wait_for_element` (`page.rs` 41-59).
`elapsedAt k` is the abstract clock's `start.elapsed().as_secs()` reading
at the `k`-th loop-head check; `poll k` is the outcome of the `k`-th
`evaluate` call (each such call submits exactly one command to the
connection).  `fuel` bounds the number of iterations modelled; `none`
means the fuel ran out before the loop finished.  On completion the
result carries the returned value and the number of `evaluate` calls
made. -/
def waitForElementRun (timeout : Nat) (elapsedAt : Nat → Nat)
    (poll : Nat → Except Error Bool) : Nat → Nat → Option (Except Error Bool × Nat)
  | 0, _ => none
  | fuel + 1, k =>
    if elapsedAt k < timeout then
      match poll k with
      | .error e => some (.error e, k + 1)
      | .ok true => some (.ok true, k + 1)
      | .ok false => waitForElementRun timeout elapsedAt poll fuel (k + 1)
    else some (.ok false, k)

/-! ### Endpoint resolution (`CdpBrowser::get_ws_url`, `browser.rs` 212-246) -/

/-- Model of `reqwest::StatusCode::is_success`. -/
def statusIsSuccess (st : Nat) : Bool := 200 ≤ st && st < 300

/-- Model of `CdpBrowser::get_ws_url` after the HTTP exchange.  `sendRes` models the
transport: a failed `send()` carries its message, a successful one carries
the status code and the outcome of reading the body text.  `parse` models
`serde_json::from_str` (an external library, passed as an uninterpreted
function; a `none` result corresponds to the `?`-propagated `Json`
error, whose rendered message is abstracted as the body text). -/
def getWsUrl (parse : String → Option Value) (url : String)
    (sendRes : Except String (Nat × Except String String)) : Except Error String :=
  match sendRes with
  | .error e => .error (.http ("Failed to connect to " ++ url ++ ": " ++ e))
  | .ok (status, bodyRes) =>
    match bodyRes with
    | .error e => .error (.http ("Failed to read response from " ++ url ++ ": " ++ e))
    | .ok body =>
      if !statusIsSuccess status then
        .error (.browser ("Chrome debugger returned error status " ++ toString status ++
          " (" ++ url ++ "). Response: " ++ body))
      else
        match parse body with
        | none => .error (.jsonErr body)
        | some v =>
          match (Value.index v "webSocketDebuggerUrl").asStr with
          | some s => .ok s
          | none =>
            .error (.browser
              ("Chrome debugger response does not contain webSocketDebuggerUrl. Response: " ++
                body))

/-! ### Retry wrapper (`CdpBrowser::get_ws_url_with_retry`, `browser.rs` 187-209) -/

/-- The retry loop: `f i` is the outcome of the `i`-th `get_ws_url`
attempt, `maxRetries` the loop bound, `attempt` the current index,
`remaining` the iterations left, `lastErr` the last failure seen.  Returns
the final result together with the number of attempts made and the number
of inter-attempt sleeps performed (`sleep(retry_delay)` runs after a
failure when `attempt < max_retries - 1`). -/
def retryGo (f : Nat → Except Error String) (maxRetries : Nat) :
    Nat → Nat → Option Error → Except Error String × Nat × Nat
  | _, 0, lastErr =>
    (.error (lastErr.getD (.browser "Failed to get WebSocket URL after retries")), 0, 0)
  | attempt, remaining + 1, _ =>
    match f attempt with
    | .ok u => (.ok u, 1, 0)
    | .error e =>
      let slept := if attempt < maxRetries - 1 then 1 else 0
      let rec' := retryGo f maxRetries (attempt + 1) remaining (some e)
      (rec'.1, rec'.2.1 + 1, rec'.2.2 + slept)

/-- Model of `CdpBrowser::get_ws_url_with_retry`: run the retry loop from attempt 0
with no failure recorded. -/
def getWsUrlWithRetry (f : Nat → Except Error String) (maxRetries : Nat) :
    Except Error String × Nat × Nat :=
  retryGo f maxRetries 0 maxRetries none

/-! ### Port extraction from the diagnostic log (`browser.rs` 85-110) -/

/-- The literal marker the port-scan task looks for (`line.contains`). -/
def markerChars : List Char := "DevTools listening on".toList

/-- The host-port separator pattern given to `line.split` in `browser.rs`
line 95. -/
def hostSep : List Char := "127.0.0.1:".toList

/-- Model of Rust `str::split(pat)` restricted to what the code consumes:
the text before the first (leftmost, non-overlapping) occurrence of `pat`
and the text after it; `none` when `pat` does not occur (so `split`
yields a single fragment and `.nth(1)` is `None`). -/
def splitFirst (pat : List Char) : List Char → Option (List Char × List Char)
  | [] => none
  | c :: cs =>
    if pat.isPrefixOf (c :: cs) then some ([], (c :: cs).drop pat.length)
    else
      match splitFirst pat cs with
      | some (p, q) => some (c :: p, q)
      | none => none

/-- Model of Rust `str::contains(pat)`. -/
def containsSub (pat s : List Char) : Bool := (splitFirst pat s).isSome

/-- Model of Rust `str::parse::<u16>()`: an optional leading `+`, then a
non-empty run of ASCII digits whose value fits in 16 bits. -/
def parseU16 (s : List Char) : Option Nat :=
  let t := match s with
    | '+' :: rest => rest
    | _ => s
  if t.isEmpty then none
  else if t.all Char.isDigit then
    let v := t.foldl (fun a c => a * 10 + (c.toNat - '0'.toNat)) 0
    if v ≤ 65535 then some v else none
  else none

/-- The per-line port extraction of the port-scan task (`browser.rs`
94-105): if the line contains the marker, take the text between the first
and second occurrence of `127.0.0.1:` (to end of line if there is no
second occurrence), cut it at the first `/`, and parse the token as a
`u16`; `none` when any step fails (the scan then moves on). -/
def portOfLine (line : List Char) : Option Nat :=
  if containsSub markerChars line then
    match splitFirst hostSep line with
    | none => none
    | some (_, rest) =>
      let frag1 :=
        match splitFirst hostSep rest with
        | some (p, _) => p
        | none => rest
      parseU16 (frag1.takeWhile (· != '/'))
  else none

/-! ### Port discovery timeout diagnostics (`CdpBrowser::launch`, `browser.rs` 115-162) -/

/-- Substring containment, as an explicit decomposition. -/
def strContains (s t : String) : Prop := ∃ a b, s = a ++ (t ++ b)

/-- The base diagnostic message (`browser.rs` 135-143).  The `{:?}`
renderings of the executable path and the profile directory are passed in
already formatted. -/
def launchFailMsg (osInfo chromePathDbg tempDirDbg chromeStderr : String) : String :=
  "=== Chrome Browser Launch Failure ===\nOS: " ++ osInfo ++
    "\nChrome Executable: " ++ chromePathDbg ++
    "\nUser Data Dir: " ++ tempDirDbg ++
    "\n=== Chrome stderr ===\n" ++ chromeStderr ++
    "\n=== End of stderr ==="

/-- The suffix appended when the child is still running
(`browser.rs` 149-156). -/
def stillRunningText : String :=
  "\n\nChrome process is still running but debugging port was not found after 30 seconds.\n\nTroubleshooting:\n- If running in CI, ensure Chrome/Chromium is installed\n- Try setting CHROME_BIN environment variable\n- For Linux CI, add --no-sandbox flag"

/-- The full timeout diagnostic (`browser.rs` 124-157): the captured log
content, or `"(unreadable)"` when the log could not be read; then either
the early-exit suffix with the child's exit status — when `try_wait`
reports the child has exited — or the still-running suffix. -/
def launchTimeoutMsg (osInfo chromePathDbg tempDirDbg : String)
    (logContent : Option String) (exitStatus : Option String) : String :=
  let chromeStderr := logContent.getD "(unreadable)"
  let base := launchFailMsg osInfo chromePathDbg tempDirDbg chromeStderr
  match exitStatus with
  | some st => base ++ "\n\nChrome process exited early with status: " ++ st
  | none => base ++ stillRunningText

/-- The port-wait loop (`browser.rs` 116-122): up to 300 polls of the
shared port slot, 100 ms apart; `obs i` is the slot's content at the
`i`-th poll. -/
def portPollLoop (obs : Nat → Option Nat) : Nat → Nat → Option Nat
  | _, 0 => none
  | i, fuel + 1 =>
    match obs i with
    | some p => some p
    | none => portPollLoop obs (i + 1) fuel

/-- Outcome of the blocking port-discovery wait (`browser.rs` 115-162): the
discovered port, or the composed diagnostic `Browser` error after the 300
polls are exhausted. -/
def discoverPort (obs : Nat → Option Nat) (osInfo chromePathDbg tempDirDbg : String)
    (logContent : Option String) (exitStatus : Option String) : Except Error Nat :=
  match portPollLoop obs 0 300 with
  | some p => .ok p
  | none =>
    .error (.browser (launchTimeoutMsg osInfo chromePathDbg tempDirDbg logContent exitStatus))

/-! ### Session manager (`BrowserManager::get_browser`, `browser.rs` 555-581) -/

/-- The mutex-guarded `BrowserState` slot: an optional shared browser
handle (identified abstractly by a `Nat`) and the last-use timestamp. -/
structure SessionState where
  browser : Option Nat
  lastUsed : Nat
deriving Repr

/-- Model of `BrowserManager::get_browser` as one atomic step — the whole body runs
holding the state lock.  `now` models `Instant::now()`; `launchRes` the
outcome `CdpBrowser::launch` would produce if invoked.  The timestamp is
written first, then the slot is checked; a launch happens only when the
slot is empty.  Returns the call's result, the new state, and whether a
launch was attempted. -/
def getBrowser (now : Nat) (launchRes : Except Error Nat) (st : SessionState) :
    Except Error Nat × SessionState × Bool :=
  let st1 : SessionState := { st with lastUsed := now }
  match st1.browser with
  | some b => (.ok b, st1, false)
  | none =>
    match launchRes with
    | .ok b => (.ok b, { browser := some b, lastUsed := now }, true)
    | .error e => (.error e, st1, true)

/-- A sequence of `get_browser` calls, serialized by the lock: each item is
the call's `now` and the launch outcome it would see.  Returns the final
state, the number of launches attempted, and the per-call results. -/
def runAcquires (calls : List (Nat × Except Error Nat)) (st : SessionState) :
    SessionState × Nat × List (Except Error Nat) :=
  match calls with
  | [] => (st, 0, [])
  | (now, l) :: rest =>
    let step := getBrowser now l st
    let restRun := runAcquires rest step.2.1
    (restRun.1, (if step.2.2 then 1 else 0) + restRun.2.1, step.1 :: restRun.2.2)

end ChromeCdp

namespace ChromeCdp


theorem nextIdAfter_closed (j : Nat) : nextIdAfter j = (1 + j) % 2 ^ 32 := by
  induction j with
  | zero => rfl
  | succ j ih =>
    have h1 : (1 : Nat) % 2 ^ 32 = 1 := Nat.mod_eq_of_lt (by norm_num)
    rw [nextIdAfter, ih]
    conv_rhs => rw [show 1 + (j + 1) = (1 + j) + 1 from by ring, Nat.add_mod, h1]

theorem retryGo_attempts_le (f : Nat → Except Error String) (m : Nat) :
    ∀ remaining attempt lastErr, (retryGo f m attempt remaining lastErr).2.1 ≤ remaining := by
  intro remaining
  induction remaining with
  | zero => intro attempt lastErr; simp [retryGo]
  | succ r ih =>
    intro attempt lastErr
    rw [retryGo]
    rcases f attempt with e | u
    · simpa using Nat.add_le_add_right (ih (attempt + 1) (some e)) 1
    · simp

theorem retryGo_attempts_pos (f : Nat → Except Error String) (m : Nat) :
    ∀ remaining attempt lastErr, 1 ≤ remaining →
      1 ≤ (retryGo f m attempt remaining lastErr).2.1 := by
  intro remaining attempt lastErr h
  match remaining, h with
  | r + 1, _ =>
    rw [retryGo]
    rcases f attempt with e | u <;> simp

theorem retryGo_sleeps (f : Nat → Except Error String) (m : Nat) :
    ∀ remaining attempt lastErr, attempt + remaining = m →
      (retryGo f m attempt remaining lastErr).2.2 =
        (retryGo f m attempt remaining lastErr).2.1 - 1 := by
  intro remaining
  induction remaining with
  | zero => intro attempt lastErr _; simp [retryGo]
  | succ r ih =>
    intro attempt lastErr hsum
    rw [retryGo]
    rcases f attempt with e | u
    · rcases Nat.eq_zero_or_pos r with hr | hr
      · subst hr
        have hat : ¬ attempt < m - 1 := by omega
        simp [retryGo, hat]
      · have hat : attempt < m - 1 := by omega
        have hcnt := retryGo_attempts_pos f m r (attempt + 1) (some e) hr
        have hslp := ih (attempt + 1) (some e) (by omega)
        simp only [hat, if_pos]
        omega
    · simp

theorem retryGo_first_ok (f : Nat → Except Error String) (m : Nat) :
    ∀ remaining attempt lastErr i u, attempt ≤ i → i < attempt + remaining →
      (∀ j, attempt ≤ j → j < i → ∃ e, f j = .error e) → f i = .ok u →
      (retryGo f m attempt remaining lastErr).1 = .ok u := by
  intro remaining
  induction remaining with
  | zero => intro attempt lastErr i u h1 h2 _ _; omega
  | succ r ih =>
    intro attempt lastErr i u h1 h2 hfail hok
    rw [retryGo]
    rcases Nat.eq_or_lt_of_le h1 with heq | hlt
    · subst heq; rw [hok]
    · obtain ⟨e, he⟩ := hfail attempt (le_refl _) hlt
      rw [he]
      exact ih (attempt + 1) (some e) i u hlt (by omega)
        (fun j hj1 hj2 => hfail j (by omega) hj2) hok

theorem retryGo_all_fail (f : Nat → Except Error String) (m : Nat)
    (es : Nat → Error) :
    ∀ remaining attempt lastErr, 1 ≤ remaining →
      (∀ i, attempt ≤ i → i < attempt + remaining → f i = .error (es i)) →
      (retryGo f m attempt remaining lastErr).1 =
        .error (es (attempt + remaining - 1)) := by
  intro remaining
  induction remaining with
  | zero => intro attempt lastErr h; omega
  | succ r ih =>
    intro attempt lastErr _ hfail
    rw [retryGo]
    rw [hfail attempt (le_refl _) (by omega)]
    rcases Nat.eq_zero_or_pos r with hr | hr
    · subst hr
      simp [retryGo]
    · have hf' : ∀ i, attempt + 1 ≤ i → i < attempt + 1 + r → f i = .error (es i) := by
        intro i h1 h2
        exact hfail i (by omega) (by omega)
      have hrec := ih (attempt + 1) (some (es attempt)) hr hf'
      have hidx : attempt + 1 + r - 1 = attempt + (r + 1) - 1 := by omega
      rw [hidx] at hrec
      simpa using hrec

theorem isPrefixOf_append_self (pat s : List Char) :
    pat.isPrefixOf (pat ++ s) = true := by
  induction pat with
  | nil => simp [List.isPrefixOf]
  | cons c cs ih => simp [List.isPrefixOf, ih]

theorem splitFirst_at_start (pat s : List Char) (h : pat ≠ []) :
    splitFirst pat (pat ++ s) = some ([], s) := by
  match pat, h with
  | c :: cs, _ =>
    rw [List.cons_append, splitFirst, ← List.cons_append,
      if_pos (isPrefixOf_append_self (c :: cs) s)]
    rw [List.drop_left]

theorem splitFirst_shift (pat : List Char) (h : Char) (t : List Char)
    (hh : pat = h :: t) :
    ∀ pre s, (∀ c ∈ pre, c ≠ h) →
      splitFirst pat (pre ++ s) =
        (splitFirst pat s).map (fun pq => (pre ++ pq.1, pq.2)) := by
  subst hh
  intro pre
  induction pre with
  | nil =>
    intro s _
    rcases hs : splitFirst (h :: t) s with _ | ⟨p, q⟩ <;> simp [hs]
  | cons c pre' ih =>
    intro s hne
    have hcne : c ≠ h := hne c (List.mem_cons_self _ _)
    have hh3 : (h == c) = false := by
      cases hbe : (h == c)
      · rfl
      · exact absurd (beq_iff_eq.mp hbe) (fun he => hcne he.symm)
    have hpf : (h :: t).isPrefixOf (c :: (pre' ++ s)) = false := by
      simp [List.isPrefixOf, hh3]
    rw [List.cons_append, splitFirst,
      if_neg (by simp only [hpf]; exact Bool.false_ne_true)]
    rw [ih s (fun x hx => hne x (List.mem_cons_of_mem _ hx))]
    rcases hs : splitFirst (h :: t) s with _ | ⟨p, q⟩ <;> simp [hs]

theorem hostSep_not_pfx_of_digits (ds rest : List Char)
    (hd : ds.all Char.isDigit = true) :
    hostSep.isPrefixOf (ds ++ '/' :: rest) = false := by
  match ds, hd with
  | [], _ => simp [hostSep, List.isPrefixOf]
  | [a], _ => simp [hostSep, List.isPrefixOf]
  | [a, b], _ => simp [hostSep, List.isPrefixOf]
  | [a, b, c], _ => simp [hostSep, List.isPrefixOf]
  | a :: b :: c :: d :: t, hd =>
    have hdd : d.isDigit = true := by
      simp [List.all_cons] at hd
      exact hd.2.2.2.1
    have hne : ('.' == d) = false := by
      cases hbe : ('.' == d)
      · rfl
      · have : '.' = d := beq_iff_eq.mp hbe
        subst this
        simp at hdd
    simp [hostSep, List.isPrefixOf, hne]

theorem takeWhile_digits_until_slash (ds rest : List Char)
    (hd : ds.all Char.isDigit = true) :
    (ds ++ '/' :: rest).takeWhile (· != '/') = ds := by
  induction ds with
  | nil => simp [List.takeWhile]
  | cons c t ih =>
    simp only [List.all_cons, Bool.and_eq_true] at hd
    have hcn : (c != '/') = true := by
      cases hbe : (c == '/')
      · simp [bne, hbe]
      · have : c = '/' := beq_iff_eq.mp hbe
        subst this
        simp at hd
    rw [List.cons_append, List.takeWhile]
    simp only [hcn]
    rw [ih hd.2]

theorem splitFirst_digits_frag (ds rest : List Char)
    (hd : ds.all Char.isDigit = true) :
    ∀ p q, splitFirst hostSep (ds ++ '/' :: rest) = some (p, q) →
      p.takeWhile (· != '/') = ds := by
  induction ds with
  | nil =>
    intro p q h
    have hnp := hostSep_not_pfx_of_digits [] rest rfl
    rw [List.nil_append] at hnp
    rw [List.nil_append, splitFirst,
      if_neg (by simp only [hnp]; exact Bool.false_ne_true)] at h
    rcases hs : splitFirst hostSep rest with _ | ⟨p', q'⟩ <;> rw [hs] at h
    · cases h
    · simp only [Option.some.injEq, Prod.mk.injEq] at h
      rw [← h.1]
      simp [List.takeWhile]
  | cons c t ih =>
    intro p q h
    have hall : (c :: t).all Char.isDigit = true := hd
    simp only [List.all_cons, Bool.and_eq_true] at hd
    rw [List.cons_append, splitFirst,
      if_neg (by
        have hnp := hostSep_not_pfx_of_digits (c :: t) rest hall
        rw [List.cons_append] at hnp
        simp only [hnp]
        exact Bool.false_ne_true)] at h
    rcases hs : splitFirst hostSep (t ++ '/' :: rest) with _ | ⟨p', q'⟩ <;> rw [hs] at h
    · cases h
    · simp only [Option.some.injEq, Prod.mk.injEq] at h
      have hcn : (c != '/') = true := by
        cases hbe : (c == '/')
        · simp [bne, hbe]
        · have : c = '/' := beq_iff_eq.mp hbe
          subst this
          simp at hd
      rw [← h.1, List.takeWhile]
      simp only [hcn]
      rw [ih hd.2 p' q' hs]

theorem portPollLoop_none (i fuel : Nat) :
    portPollLoop (fun _ => none) i fuel = none := by
  induction fuel generalizing i with
  | zero => rfl
  | succ f ih =>
    rw [portPollLoop]
    exact ih (i + 1)

theorem launchFailMsg_parts (o p d c suffix : String) :
    strContains (launchFailMsg o p d c ++ suffix) o ∧
      strContains (launchFailMsg o p d c ++ suffix) p ∧
      strContains (launchFailMsg o p d c ++ suffix) d ∧
      strContains (launchFailMsg o p d c ++ suffix) c := by
  refine ⟨⟨"=== Chrome Browser Launch Failure ===\nOS: ",
      "\nChrome Executable: " ++ p ++ "\nUser Data Dir: " ++ d ++
        "\n=== Chrome stderr ===\n" ++ c ++ "\n=== End of stderr ===" ++ suffix, ?_⟩,
    ⟨"=== Chrome Browser Launch Failure ===\nOS: " ++ o ++ "\nChrome Executable: ",
      "\nUser Data Dir: " ++ d ++ "\n=== Chrome stderr ===\n" ++ c ++
        "\n=== End of stderr ===" ++ suffix, ?_⟩,
    ⟨"=== Chrome Browser Launch Failure ===\nOS: " ++ o ++ "\nChrome Executable: " ++ p ++
        "\nUser Data Dir: ",
      "\n=== Chrome stderr ===\n" ++ c ++ "\n=== End of stderr ===" ++ suffix, ?_⟩,
    ⟨"=== Chrome Browser Launch Failure ===\nOS: " ++ o ++ "\nChrome Executable: " ++ p ++
        "\nUser Data Dir: " ++ d ++ "\n=== Chrome stderr ===\n",
      "\n=== End of stderr ===" ++ suffix, ?_⟩⟩ <;>
    simp [launchFailMsg, String.append_assoc]

theorem runAcquires_live (calls : List (Nat × Except Error Nat)) :
    ∀ st b, st.browser = some b →
      (runAcquires calls st).2.1 = 0 ∧
        (∀ r ∈ (runAcquires calls st).2.2, r = .ok b) ∧
        (runAcquires calls st).1.browser = some b := by
  induction calls with
  | nil =>
    intro st b h
    exact ⟨rfl, by simp [runAcquires], h⟩
  | cons c rest ih =>
    intro st b h
    obtain ⟨now, l⟩ := c
    have hstep : getBrowser now l st = (.ok b, { browser := some b, lastUsed := now }, false) := by
      simp [getBrowser, h]
    obtain ⟨ih1, ih2, ih3⟩ := ih { browser := some b, lastUsed := now } b rfl
    rw [runAcquires]
    rw [hstep]
    refine ⟨by simpa using ih1, ?_, by simpa using ih3⟩
    intro r hr
    simp only [List.mem_cons] at hr
    rcases hr with hr | hr
    · exact hr
    · exact ih2 r hr

/-- C1 (corrected).  For an inbound message whose (u32-truncated) `id` is
present in the pending table, the reader removes exactly that entry and:
sends a failure built from the protocol-reported code and message when an
`error` field is present; sends the `result` payload when a `result` field
is present; and when neither field is present it drops the completion slot
without sending anything (the submitter then fails through closure of the
oneshot channel, not with a payload). -/
theorem reader_correlated_delivery (pending : List (Nat × Nat)) (v : Value)
    (idRaw id k r : Nat)
    (hid : (Value.index v "id").asU64 = some idRaw)
    (hmod : idRaw % 2 ^ 32 = id)
    (hfind : pending.find? (fun p => p.1 == id) = some (k, r)) :
    readerStep pending v =
      (pending.filter (fun p => p.1 != id),
       some (r,
         match Value.get v "error" with
         | some err => Delivery.sentErr (cdpErrMsg id err)
         | none =>
           match Value.get v "result" with
           | some res => Delivery.sentOk res
           | none => Delivery.dropped)) := by
  simp only [readerStep, removePending, hid, hmod, hfind, Option.map_some']
  rcases Value.get v "error" with _ | err
  · rcases Value.get v "result" with _ | res <;> rfl
  · rfl

/-- Witness for `reader_correlated_delivery`: the spec's example message
`{"id":1,"result":{"status":"ok"}}` against a table holding submission 1
resolves it with success value `{"status":"ok"}`. -/
theorem reader_correlated_delivery_witness :
    readerStep [(1, (7 : Nat))]
        (Value.obj [("id", Value.num 1), ("result", Value.obj [("status", Value.str "ok")])]) =
      ([], some (7, Delivery.sentOk (Value.obj [("status", Value.str "ok")]))) :=
  reader_correlated_delivery [(1, 7)] _ 1 1 1 7 rfl rfl rfl

/-- Counterexample to C1 as stated: the correlated message `{"id":1}` —
with neither an `error` nor a `result` field — does not resolve the
submitter with a payload; the reader drops the completion slot without
sending. -/
theorem reader_neither_field_counterex :
    (readerStep [(1, (0 : Nat))] (Value.obj [("id", Value.num 1)])).2 =
        some (0, Delivery.dropped) ∧
      ∀ w : Value,
        (some ((0 : Nat), Delivery.dropped) : Option (Nat × Delivery)) ≠
          some (0, Delivery.sentOk w) := by
  refine ⟨rfl, ?_⟩
  intro w h
  simp at h

/-- C2 (corrected).  Identifier assignment starts at 1 and is strictly
increasing: the `(j+1)`-th submission receives identifier `j+1`, so the
identifiers of the first `N` submissions are exactly `1..N` with no
duplicates — provided `N ≤ 2^32 − 1`, since the `u32` counter wraps
modulo `2^32`. -/
theorem send_command_ids (N : Nat) (hN : N ≤ 2 ^ 32 - 1) :
    ∀ j < N, assignedId j = j + 1 := by
  intro j hj
  rw [assignedId, nextIdAfter_closed]
  have hlt : 1 + j < 2 ^ 32 := by omega
  rw [Nat.mod_eq_of_lt hlt]
  omega

/-- Witness for `send_command_ids`: within a run of 5 submissions the third
submission receives identifier 3. -/
theorem send_command_ids_witness : assignedId 2 = 3 :=
  send_command_ids 5 (by norm_num) 2 (by norm_num)

/-- Counterexample to C2 as stated: submission number `2^32 + 1` (index
`2^32`) receives the same identifier as submission number 1 (index 0),
because the `u32` counter wraps; so over an unbounded connection lifetime
an identifier can be assigned to two commands. -/
theorem send_command_id_wrap_counterex :
    assignedId (2 ^ 32) = assignedId 0 ∧ (2 ^ 32 : Nat) ≠ 0 := by
  constructor
  · rw [assignedId, assignedId, nextIdAfter_closed, nextIdAfter_closed]
    simp [Nat.add_mod_right]
  · norm_num

/-- C3 (confirmed).  Every envelope the writer hands to the channel has its
completion slot inserted into the pending table strictly before the send:
the table at send time is exactly the table before the command, with the
command's responder inserted, and in particular it contains an entry for
the envelope's identifier. -/
theorem writer_pending_at_send (pending : List (Nat × α))
    (queue : List (Nat × String × Value × α × Bool)) :
    ∀ ent ∈ writerRun pending queue,
      ∃ r, ent.2.2 = insertPending ent.1 r ent.2.1 ∧ (ent.1, r) ∈ ent.2.2 := by
  induction queue generalizing pending with
  | nil => intro ent h; simp [writerRun] at h
  | cons cmd rest ih =>
    obtain ⟨id, method, params, r, sendOk⟩ := cmd
    intro ent h
    rw [writerRun] at h
    rcases List.mem_cons.mp h with h1 | h2
    · subst h1
      exact ⟨r, rfl, List.mem_cons_self _ _⟩
    · by_cases hs : sendOk
      · rw [if_pos hs] at h2
        exact ih _ ent h2
      · rw [if_neg hs] at h2
        simp at h2

/-- Witness for `writer_pending_at_send`: processing a single queued
command with identifier 1 from an empty table sends one envelope, whose
pending table at send time holds the command's responder. -/
theorem writer_pending_at_send_witness :
    ∃ r, ([(1, (7 : Nat))] : List (Nat × Nat)) = insertPending 1 r [] ∧
      ((1 : Nat), r) ∈ ([(1, (7 : Nat))] : List (Nat × Nat)) :=
  writer_pending_at_send [] [(1, "Page.enable", Value.obj [], 7, true)]
    (1, [], [(1, 7)]) (List.Mem.head _)

/-- C4 (confirmed).  For a diagnostic log line consisting of the
`DevTools listening on` marker, any filler without the digit `1` (such as
`" ws://"`), the `127.0.0.1:` host marker, a digit run, a `/` and an
arbitrary trailing path, port extraction returns exactly the digit run
between the host marker and the next `/`, parsed as a 16-bit integer —
whatever the trailing path contains. -/
theorem port_extraction (mid ds rest : List Char) (n : Nat)
    (hmid : ∀ c ∈ mid, c ≠ '1')
    (hds : ds.all Char.isDigit = true)
    (hn : parseU16 ds = some n) :
    portOfLine ((markerChars ++ mid) ++ (hostSep ++ (ds ++ '/' :: rest))) = some n := by
  have hpre : ∀ c ∈ markerChars ++ mid, c ≠ '1' := by
    intro c hc
    rcases List.mem_append.mp hc with hc | hc
    · have hm : ∀ c ∈ markerChars, c ≠ '1' := by decide
      exact hm c hc
    · exact hmid c hc
  have hcontain : containsSub markerChars
      ((markerChars ++ mid) ++ (hostSep ++ (ds ++ '/' :: rest))) = true := by
    rw [List.append_assoc, containsSub, splitFirst_at_start _ _ (by decide)]
    rfl
  have hsplit : splitFirst hostSep
      ((markerChars ++ mid) ++ (hostSep ++ (ds ++ '/' :: rest))) =
      some (markerChars ++ mid, ds ++ '/' :: rest) := by
    rw [splitFirst_shift hostSep '1' "27.0.0.1:".toList rfl (markerChars ++ mid) _ hpre]
    rw [splitFirst_at_start _ _ (by decide)]
    simp
  rw [portOfLine, if_pos hcontain]
  simp only [hsplit]
  rcases hsp : splitFirst hostSep (ds ++ '/' :: rest) with _ | ⟨p, q⟩
  · simp only [hsp]
    rw [takeWhile_digits_until_slash ds rest hds]
    exact hn
  · simp only [hsp]
    rw [splitFirst_digits_frag ds rest hds p q hsp]
    exact hn

/-- Witness for `port_extraction`: the spec's example line yields exactly
port 9222. -/
theorem port_extraction_witness :
    portOfLine "DevTools listening on ws://127.0.0.1:9222/devtools/browser/abc".toList =
      some 9222 :=
  port_extraction " ws://".toList "9222".toList "devtools/browser/abc".toList 9222
    (by decide) (by decide) (by decide)

/-- C5 (confirmed).  When the port-wait loop exhausts its 300 polls without
a port, the result is a returned `Browser` failure (not a panic) whose
message contains the OS/arch info, the executable path, the profile
directory, and the captured log content (`"(unreadable)"` when the log
could not be read); the message ends with the early-exit suffix carrying
the child's exit status exactly when `try_wait` reported an exit, and with
the still-running suffix otherwise. -/
theorem port_discovery_timeout_error (obs : Nat → Option Nat)
    (osInfo chromePathDbg tempDirDbg : String)
    (logContent exitStatus : Option String)
    (h : portPollLoop obs 0 300 = none) :
    ∃ msg, discoverPort obs osInfo chromePathDbg tempDirDbg logContent exitStatus =
        .error (.browser msg) ∧
      strContains msg osInfo ∧ strContains msg chromePathDbg ∧
      strContains msg tempDirDbg ∧ strContains msg (logContent.getD "(unreadable)") ∧
      (∀ st, exitStatus = some st →
        msg = launchFailMsg osInfo chromePathDbg tempDirDbg (logContent.getD "(unreadable)") ++
          "\n\nChrome process exited early with status: " ++ st) ∧
      (exitStatus = none →
        msg = launchFailMsg osInfo chromePathDbg tempDirDbg (logContent.getD "(unreadable)") ++
          stillRunningText) := by
  have hform : ∃ suffix,
      launchTimeoutMsg osInfo chromePathDbg tempDirDbg logContent exitStatus =
        launchFailMsg osInfo chromePathDbg tempDirDbg (logContent.getD "(unreadable)") ++
          suffix := by
    rcases exitStatus with _ | st
    · exact ⟨stillRunningText, rfl⟩
    · exact ⟨"\n\nChrome process exited early with status: " ++ st,
        by simp [launchTimeoutMsg, String.append_assoc]⟩
  obtain ⟨suffix, hs⟩ := hform
  refine ⟨launchTimeoutMsg osInfo chromePathDbg tempDirDbg logContent exitStatus,
    by simp [discoverPort, h], ?_, ?_, ?_, ?_, ?_, ?_⟩
  · rw [hs]; exact (launchFailMsg_parts _ _ _ _ _).1
  · rw [hs]; exact (launchFailMsg_parts _ _ _ _ _).2.1
  · rw [hs]; exact (launchFailMsg_parts _ _ _ _ _).2.2.1
  · rw [hs]; exact (launchFailMsg_parts _ _ _ _ _).2.2.2
  · intro st hst
    subst hst
    rfl
  · intro h0
    subst h0
    rfl

/-- Witness for `port_discovery_timeout_error`: a run where the port slot
never fills, the log was unreadable, and the child exited with status
`"exit status: 1"`. -/
theorem port_discovery_timeout_error_witness :
    ∃ msg, discoverPort (fun _ => none) "linux x86_64 (unix)" "p" "d" none
          (some "exit status: 1") = .error (.browser msg) ∧
      strContains msg "linux x86_64 (unix)" ∧ strContains msg "p" ∧
      strContains msg "d" ∧
      strContains msg ((none : Option String).getD "(unreadable)") ∧
      (∀ st, (some "exit status: 1" : Option String) = some st →
        msg = launchFailMsg "linux x86_64 (unix)" "p" "d"
            ((none : Option String).getD "(unreadable)") ++
          "\n\nChrome process exited early with status: " ++ st) ∧
      ((some "exit status: 1" : Option String) = none →
        msg = launchFailMsg "linux x86_64 (unix)" "p" "d"
            ((none : Option String).getD "(unreadable)") ++ stillRunningText) :=
  port_discovery_timeout_error (fun _ => none) "linux x86_64 (unix)" "p" "d" none
    (some "exit status: 1") (portPollLoop_none 0 300)

/-- C6 (confirmed).  The manager's `get_browser` is idempotent: with a live pair in the
slot it returns that same handle without launching; the last-use timestamp
is updated on every call (before the slot check, so also on the error
path); and across any lock-serialized sequence of calls starting from an
empty slot whose first launch succeeds, exactly one launch happens and
every call returns the same handle. -/
theorem get_browser_single_launch :
    (∀ now l st b, st.browser = some b →
        getBrowser now l st = (.ok b, { browser := some b, lastUsed := now }, false)) ∧
    (∀ now l st, (getBrowser now l st).2.1.lastUsed = now) ∧
    (∀ (n0 b0 : Nat) (rest : List (Nat × Except Error Nat)) (st0 : SessionState),
        st0.browser = none →
        (runAcquires ((n0, .ok b0) :: rest) st0).2.1 = 1 ∧
          ∀ r ∈ (runAcquires ((n0, .ok b0) :: rest) st0).2.2, r = .ok b0) := by
  refine ⟨?_, ?_, ?_⟩
  · intro now l st b h
    simp [getBrowser, h]
  · intro now l st
    rcases hb : st.browser with _ | b
    · rcases l with e | b' <;> simp [getBrowser, hb]
    · simp [getBrowser, hb]
  · intro n0 b0 rest st0 h0
    have hstep : getBrowser n0 (.ok b0) st0 =
        (.ok b0, { browser := some b0, lastUsed := n0 }, true) := by
      simp [getBrowser, h0]
    obtain ⟨h1, h2, _⟩ := runAcquires_live rest { browser := some b0, lastUsed := n0 } b0 rfl
    rw [runAcquires]
    rw [hstep]
    constructor
    · simp [h1]
    · intro r hr
      simp only [List.mem_cons] at hr
      rcases hr with hr | hr
      · simpa using hr
      · exact h2 r (by simpa using hr)

/-- Witness for `get_browser_single_launch`: two sequential acquires from
an empty slot launch once and both return the first launch's handle. -/
theorem get_browser_single_launch_witness :
    (runAcquires [(0, .ok 5), (1, .ok 6)] { browser := none, lastUsed := 0 }).2.1 = 1 ∧
      ∀ r ∈ (runAcquires [(0, .ok 5), (1, .ok 6)]
          { browser := none, lastUsed := 0 }).2.2, r = .ok 5 :=
  get_browser_single_launch.2.2 0 5 [(1, .ok 6)] { browser := none, lastUsed := 0 } rfl

/-- C7 (confirmed).  Endpoint resolution on a success-status response whose parsed
body holds a string field `webSocketDebuggerUrl` returns exactly that
string; on a success-status response without such a string field it fails
with the field-absent `Browser` error — a constructor distinct from the
`Http` transport failures; and on a non-success status it fails with an
error carrying the status code and the response body, with no condition on
the body's content. -/
theorem get_ws_url_cases (parse : String → Option Value) (url : String) :
    (∀ st body v s, statusIsSuccess st = true → parse body = some v →
        (Value.index v "webSocketDebuggerUrl").asStr = some s →
        getWsUrl parse url (.ok (st, .ok body)) = .ok s) ∧
    (∀ st body v, statusIsSuccess st = true → parse body = some v →
        (Value.index v "webSocketDebuggerUrl").asStr = none →
        getWsUrl parse url (.ok (st, .ok body)) =
          .error (.browser
            ("Chrome debugger response does not contain webSocketDebuggerUrl. Response: " ++
              body))) ∧
    (∀ st body, statusIsSuccess st = false →
        getWsUrl parse url (.ok (st, .ok body)) =
          .error (.browser ("Chrome debugger returned error status " ++ toString st ++
            " (" ++ url ++ "). Response: " ++ body))) ∧
    (∀ e, getWsUrl parse url (.error e) =
        .error (.http ("Failed to connect to " ++ url ++ ": " ++ e))) ∧
    (∀ a b, Error.browser a ≠ Error.http b) := by
  refine ⟨?_, ?_, ?_, ?_, ?_⟩
  · intro st body v s h1 h2 h3
    simp [getWsUrl, h1, h2, h3]
  · intro st body v h1 h2 h3
    simp [getWsUrl, h1, h2, h3]
  · intro st body h1
    simp [getWsUrl, h1]
  · intro e
    rfl
  · intro a b h
    cases h

/-- Witness for `get_ws_url_cases`: the spec's example — a 200 response
whose body parses to `{"webSocketDebuggerUrl":"ws://localhost:9222/devtools/page/X"}`
yields exactly that address. -/
theorem get_ws_url_cases_witness :
    getWsUrl
        (fun _ => some (Value.obj
          [("webSocketDebuggerUrl", Value.str "ws://localhost:9222/devtools/page/X")]))
        "http://127.0.0.1:9222/json/version"
        (.ok (200, .ok "body")) = .ok "ws://localhost:9222/devtools/page/X" :=
  (get_ws_url_cases _ _).1 200 "body" _ "ws://localhost:9222/devtools/page/X" rfl rfl rfl

/-- C8 (confirmed).  The retry wrapper makes at most `max_retries` attempts
with one inter-attempt sleep between consecutive attempts (sleeps = attempts − 1);
it returns the first successful address; and when every attempt fails it
returns the failure observed on the last attempt. -/
theorem get_ws_url_retry_spec (f : Nat → Except Error String) (m : Nat) :
    ((getWsUrlWithRetry f m).2.1 ≤ m ∧
      (getWsUrlWithRetry f m).2.2 = (getWsUrlWithRetry f m).2.1 - 1) ∧
    (∀ i u, i < m → (∀ j, j < i → ∃ e, f j = .error e) → f i = .ok u →
        (getWsUrlWithRetry f m).1 = .ok u) ∧
    (∀ es : Nat → Error, 1 ≤ m → (∀ i, i < m → f i = .error (es i)) →
        (getWsUrlWithRetry f m).1 = .error (es (m - 1))) := by
  refine ⟨⟨retryGo_attempts_le f m m 0 none, retryGo_sleeps f m m 0 none (by omega)⟩, ?_, ?_⟩
  · intro i u hi hfail hok
    have hf' : ∀ j, 0 ≤ j → j < i → ∃ e, f j = .error e := by
      intro j _ hj
      exact hfail j hj
    exact retryGo_first_ok f m m 0 none i u (Nat.zero_le _) (by omega) hf' hok
  · intro es hm hfail
    have hf' : ∀ i, 0 ≤ i → i < 0 + m → f i = .error (es i) := by
      intro i _ h2
      exact hfail i (by omega)
    have := retryGo_all_fail f m es m 0 none hm hf'
    simpa using this

/-- Witness for `get_ws_url_retry_spec`: with 3 allowed attempts where
attempt 0 fails and attempt 1 succeeds, the wrapper returns attempt 1's
address. -/
theorem get_ws_url_retry_spec_witness :
    (getWsUrlWithRetry
        (fun i => if i = 0 then .error (.http "refused") else .ok "ws://x") 3).1 =
      .ok "ws://x" :=
  (get_ws_url_retry_spec _ 3).2.1 1 "ws://x" (by omega)
    (by
      intro j hj
      have hj0 : j = 0 := by omega
      subst hj0
      exact ⟨Error.http "refused", rfl⟩)
    rfl

/-- C9 (confirmed).  The poll loop of `wait_for_element` with `timeout_secs = 0` returns
`Ok(false)` after zero `evaluate` calls (each `evaluate` call is the only
way the loop submits a command); whenever the polled predicate never
evaluates to true (and never errs) the loop's result is `Ok(false)`, not
an error; and an error result can only be the error of the last
`evaluate` call made. -/
theorem wait_for_element_spec :
    (∀ (elapsedAt : Nat → Nat) (poll : Nat → Except Error Bool) (fuel : Nat), 1 ≤ fuel →
        waitForElementRun 0 elapsedAt poll fuel 0 = some (.ok false, 0)) ∧
    (∀ timeout elapsedAt poll, (∀ j, poll j = .ok false) →
        ∀ fuel k r n, waitForElementRun timeout elapsedAt poll fuel k = some (r, n) →
          r = .ok false) ∧
    (∀ timeout elapsedAt poll fuel k e n,
        waitForElementRun timeout elapsedAt poll fuel k = some (.error e, n) →
        poll (n - 1) = .error e) := by
  refine ⟨?_, ?_, ?_⟩
  · intro elapsedAt poll fuel h
    match fuel, h with
    | f + 1, _ =>
      rw [waitForElementRun]
      simp
  · intro t el poll hp fuel
    induction fuel with
    | zero =>
      intro k r n h
      simp [waitForElementRun] at h
    | succ f ih =>
      intro k r n h
      rw [waitForElementRun] at h
      by_cases hc : el k < t
      · rw [if_pos hc, hp k] at h
        exact ih (k + 1) r n h
      · rw [if_neg hc] at h
        simp only [Option.some.injEq, Prod.mk.injEq] at h
        exact h.1.symm
  · intro t el poll fuel
    induction fuel with
    | zero =>
      intro k e n h
      simp [waitForElementRun] at h
    | succ f ih =>
      intro k e n h
      rw [waitForElementRun] at h
      by_cases hc : el k < t
      · rw [if_pos hc] at h
        rcases hp : poll k with e' | b
        · rw [hp] at h
          simp only [Option.some.injEq, Prod.mk.injEq] at h
          obtain ⟨h1, h2⟩ := h
          subst h2
          simp only [Nat.add_sub_cancel]
          rw [hp, h1]
        · rw [hp] at h
          cases b
          · exact ih (k + 1) e n h
          · simp only [Option.some.injEq, Prod.mk.injEq] at h
            exact absurd h.1 (by simp)
      · rw [if_neg hc] at h
        simp only [Option.some.injEq, Prod.mk.injEq] at h
        exact absurd h.1 (by simp)

/-- Witness for `wait_for_element_spec`: with timeout 0 the loop returns
`Ok(false)` having made zero `evaluate` calls. -/
theorem wait_for_element_spec_witness :
    waitForElementRun 0 (fun _ => 0) (fun _ => .ok false) 1 0 = some (.ok false, 0) :=
  wait_for_element_spec.1 (fun _ => 0) (fun _ => .ok false) 1 (le_refl 1)

/-- C10 (confirmed).  A successful `Runtime.evaluate` response without an
`exceptionDetails` field makes `evaluate` return the value at
`result["result"]["value"]`; when the `result` object or its `value` field
is absent, indexing yields `Null`, so `evaluate` returns JSON null rather
than an error. -/
theorem evaluate_result_value :
    (∀ v : Value, Value.get v "exceptionDetails" = none →
        evalOutcome (.ok v) = .ok ((Value.index v "result").index "value")) ∧
    (∀ v : Value, Value.get v "exceptionDetails" = none →
        Value.get (Value.index v "result") "value" = none →
        evalOutcome (.ok v) = .ok Value.null) := by
  constructor
  · intro v h
    simp [evalOutcome, h]
  · intro v h h2
    simp only [Value.index] at h2
    simp [evalOutcome, h, Value.index, h2]

/-- Witness for `evaluate_result_value`: a response carrying
`result.result.value = "x"` returns `"x"`; a response with no `result`
object returns JSON null. -/
theorem evaluate_result_value_witness :
    evalOutcome (.ok (Value.obj [("result", Value.obj [("value", Value.str "x")])])) =
        .ok (Value.str "x") ∧
      evalOutcome (.ok (Value.obj [])) = .ok Value.null :=
  ⟨evaluate_result_value.1 _ rfl, evaluate_result_value.2 _ rfl rfl⟩

end ChromeCdp
